import Mathlib

/-!
Verification of the swarm-simulation server (`sim_pkg/simulator.py`) against its
natural-language specification.  The Python source is shallowly embedded below:
pure numeric code becomes functions over `ℝ`, the per-robot message buffers are
modelled with an explicit store/binding heap (Python list objects and the
variables that reference them), command handling becomes a transition function
on an explicit simulation state, and randomness (`np.random.uniform`) becomes an
explicit tape of draws.
-/

namespace SwarmSim

/-- The configuration surface read from the scenario file (only the fields the
embedded code consults). -/
structure Config where
  comm_range : ℝ
  packet_pass_rate : ℝ
  msg_buffer_size : ℕ
  robot_diameter : ℝ
  robot_radius : ℝ
  arena_width : ℝ
  arena_height : ℝ
  max_motor_speed : ℝ
  num_robots : ℕ

/-- Per-robot state `BotDiffDrive` (id, pose, logical clock, indicator). -/
structure BotDiffDrive where
  id : ℕ
  pos_x : ℝ
  pos_y : ℝ
  pos_angle : ℝ
  clk : ℝ
  usr_led : ℕ × ℕ × ℕ

instance : Inhabited BotDiffDrive := ⟨⟨0, 0, 0, 0, 0, (0, 0, 0)⟩⟩

/-- Constant `self.radius_of_wheel = 0.015` in `BotDiffDrive.__init__`. -/
def radius_of_wheel : ℝ := 0.015

/-- Constant `self.distance_between_wheel = 0.04` in `BotDiffDrive.__init__`. -/
def distance_between_wheel : ℝ := 0.04

/-- Python `a % b` on floats (for the positive modulus used here):
`a - b * floor(a / b)`. -/
noncomputable def pymod (a b : ℝ) : ℝ := a - b * ⌊a / b⌋

/-- The heading wrap `(x + np.pi) % (2 * np.pi) - np.pi` in
`BotDiffDrive.integrate`. -/
noncomputable def wrapAngle (x : ℝ) : ℝ := pymod (x + Real.pi) (2 * Real.pi) - Real.pi

/-- Method `BotDiffDrive.dynamics`: the state matrix applied to the scaled velocity
vector `(v_l, v_r)`, returning `(angle', x', y')` (rows 3/4 of the Python
matrix only echo the inputs and are dropped by the caller). -/
noncomputable def BotDiffDrive.dynamics (b : BotDiffDrive) (v_l v_r : ℝ) : ℝ × ℝ × ℝ :=
  (b.pos_angle + (-radius_of_wheel / (2 * distance_between_wheel)) * v_l
      + (radius_of_wheel / (2 * distance_between_wheel)) * v_r,
   b.pos_x + (radius_of_wheel * Real.cos b.pos_angle / 2) * v_l
      + (radius_of_wheel * Real.cos b.pos_angle / 2) * v_r,
   b.pos_y + (radius_of_wheel * Real.sin b.pos_angle / 2) * v_l
      + (radius_of_wheel * Real.sin b.pos_angle / 2) * v_r)

/-- Method `BotDiffDrive.integrate`: scale the wheel speeds by `delta_time`, apply the
dynamics, and wrap the heading. -/
noncomputable def BotDiffDrive.integrate (b : BotDiffDrive) (u_left u_right delta_time : ℝ) :
    ℝ × ℝ × ℝ :=
  let pos := b.dynamics (u_left * delta_time) (u_right * delta_time)
  (wrapAngle pos.1, pos.2.1, pos.2.2)

lemma pymod_eq_fract (a b : ℝ) (hb : b ≠ 0) : pymod a b = b * Int.fract (a / b) := by
  unfold pymod Int.fract
  rw [mul_sub, mul_div_cancel₀ _ hb]

lemma pymod_mem_Ico (a b : ℝ) (hb : 0 < b) : pymod a b ∈ Set.Ico 0 b := by
  rw [pymod_eq_fract a b hb.ne']
  constructor
  · exact mul_nonneg hb.le (Int.fract_nonneg _)
  · calc b * Int.fract (a / b) < b * 1 :=
        (mul_lt_mul_left hb).mpr (Int.fract_lt_one _)
    _ = b := mul_one b

lemma wrapAngle_mem_Ico (x : ℝ) : wrapAngle x ∈ Set.Ico (-Real.pi) Real.pi := by
  have h := pymod_mem_Ico (x + Real.pi) (2 * Real.pi) (by positivity)
  unfold wrapAngle
  constructor
  · linarith [h.1]
  · linarith [h.2]

lemma wrapAngle_eq_self {x : ℝ} (h1 : -Real.pi ≤ x) (h2 : x < Real.pi) : wrapAngle x = x := by
  have hb : (2 : ℝ) * Real.pi ≠ 0 := by positivity
  unfold wrapAngle
  rw [pymod_eq_fract _ _ hb]
  have hfr : Int.fract ((x + Real.pi) / (2 * Real.pi)) = (x + Real.pi) / (2 * Real.pi) := by
    rw [Int.fract_eq_self]
    constructor
    · apply div_nonneg (by linarith) (by positivity)
    · rw [div_lt_one (by positivity)]
      linarith
  rw [hfr]
  field_simp

lemma wrapAngle_pi : wrapAngle Real.pi = -Real.pi := by
  have hb : (2 : ℝ) * Real.pi ≠ 0 := by positivity
  unfold wrapAngle
  rw [pymod_eq_fract _ _ hb]
  have : (Real.pi + Real.pi) / (2 * Real.pi) = 1 := by
    field_simp
    ring
  rw [this, Int.fract_one, mul_zero]
  ring

/-- C2 (amended): for every robot, every pair of wheel speeds and every time
step, the heading produced by one integration step lies in the half-open
interval `[-π, π)` — closed at `-π`, open at `π` (Python's `%` returns a value
in `[0, 2π)`, so the wrap lands in `[-π, π)`, not `(-π, π]`). -/
theorem integrate_heading_range (b : BotDiffDrive) (u_left u_right delta_time : ℝ) :
    (b.integrate u_left u_right delta_time).1 ∈ Set.Ico (-Real.pi) Real.pi := by
  unfold BotDiffDrive.integrate
  exact wrapAngle_mem_Ico _

/-- C2 counterexample: a robot whose heading is exactly `π` (a value the
claimed interval `(-π, π]` itself contains) integrates, with zero wheel speeds,
to a stored heading of `-π`, which is *not* in `(-π, π]`. -/
theorem integrate_heading_pi_counterexample :
    (BotDiffDrive.integrate ⟨0, 0, 0, Real.pi, 0, (0, 0, 0)⟩ 0 0 1).1 = -Real.pi ∧
    (BotDiffDrive.integrate ⟨0, 0, 0, Real.pi, 0, (0, 0, 0)⟩ 0 0 1).1 ∉
      Set.Ioc (-Real.pi) Real.pi := by
  have hval : (BotDiffDrive.integrate ⟨0, 0, 0, Real.pi, 0, (0, 0, 0)⟩ 0 0 1).1 = -Real.pi := by
    unfold BotDiffDrive.integrate BotDiffDrive.dynamics
    simp only [zero_mul, mul_zero, add_zero]
    exact wrapAngle_pi
  refine ⟨hval, ?_⟩
  rw [hval]
  intro hmem
  exact lt_irrefl _ hmem.1

/-- C9 (amended): a robot whose stored heading lies in `[-π, π)` (the range
the integrator itself produces), commanded with equal wheel speeds `u` for time
`t`, keeps its heading exactly and is displaced along the initial heading by
the analytic straight-line distance `radius_of_wheel * u * t`.  At a heading of
exactly `π` the stored heading instead becomes `-π` (the same direction). -/
theorem straight_line_motion (b : BotDiffDrive) (u t : ℝ)
    (h1 : -Real.pi ≤ b.pos_angle) (h2 : b.pos_angle < Real.pi) :
    b.integrate u u t =
      (b.pos_angle,
       b.pos_x + radius_of_wheel * u * t * Real.cos b.pos_angle,
       b.pos_y + radius_of_wheel * u * t * Real.sin b.pos_angle) := by
  unfold BotDiffDrive.integrate BotDiffDrive.dynamics
  have hang : b.pos_angle + -radius_of_wheel / (2 * distance_between_wheel) * (u * t)
      + radius_of_wheel / (2 * distance_between_wheel) * (u * t) = b.pos_angle := by ring
  simp only [hang]
  rw [wrapAngle_eq_self h1 h2]
  refine congrArg (Prod.mk b.pos_angle) ?_
  refine Prod.ext ?_ ?_ <;> simp <;> ring

/-- Witness for `straight_line_motion`: the spec's concrete scenario — equal
wheel speed `10` for `1` second from heading `0` moves the robot straight ahead
by `0.015 * 10 * 1 = 0.15` with heading unchanged. -/
theorem straight_line_motion_witness :
    BotDiffDrive.integrate ⟨0, 0, 0, 0, 0, (0, 0, 0)⟩ 10 10 1 = (0, 0.15, 0) := by
  have h := straight_line_motion ⟨0, 0, 0, 0, 0, (0, 0, 0)⟩ 10 1
    (by simp; positivity) (by simpa using Real.pi_pos)
  rw [h]
  norm_num [radius_of_wheel]

/-- C9 counterexample: at the (spec-legal) stored heading `π`, equal wheel
speeds `10` for `1` second change the stored heading (to `-π`), so `heading is
unchanged after integration` fails as universally stated. -/
theorem straight_line_heading_pi_counterexample :
    (BotDiffDrive.integrate ⟨0, 0, 0, Real.pi, 0, (0, 0, 0)⟩ 10 10 1).1 ≠
      (⟨0, 0, 0, Real.pi, 0, (0, 0, 0)⟩ : BotDiffDrive).pos_angle := by
  have hval : (BotDiffDrive.integrate ⟨0, 0, 0, Real.pi, 0, (0, 0, 0)⟩ 10 10 1).1 = -Real.pi := by
    unfold BotDiffDrive.integrate BotDiffDrive.dynamics
    have hang : Real.pi + -radius_of_wheel / (2 * distance_between_wheel) * (10 * 1)
        + radius_of_wheel / (2 * distance_between_wheel) * (10 * 1) = Real.pi := by ring
    simp only [hang]
    exact wrapAngle_pi
  rw [hval]
  simp only []
  intro h
  have := Real.pi_pos
  linarith [h]

/-! ## Message buffers

Python's `msg_buffer` is a list of references to list objects; `loop` builds it
as `[[]] * config.num_robots`, so initially every entry references *one and the
same* list object.  `MsgBuffers` models this heap explicitly: `store` holds the
list objects, `binding` maps each robot index to the store cell its buffer
variable currently references.  In-place mutation (`.append`) edits the shared
cell; slice assignment (`msg_buffer[i] = ...`) rebinds one index to a fresh
cell. -/

/-- A message payload (the raw bytes received from the sender's socket). -/
abbrev Msg := List ℕ

structure MsgBuffers where
  store : List (List Msg)
  binding : List ℕ

/-- The list `msg_buffer[i]` currently references. -/
def MsgBuffers.get (B : MsgBuffers) (i : ℕ) : List Msg :=
  B.store.getD (B.binding.getD i 0) []

/-- Mutation `msg_buffer[i].append(m)`: in-place mutation of the referenced cell. -/
def MsgBuffers.appendAt (B : MsgBuffers) (i : ℕ) (m : Msg) : MsgBuffers :=
  { B with store := B.store.set (B.binding.getD i 0) (B.get i ++ [m]) }

/-- Rebinding `msg_buffer[i] = l`: rebind index `i` to a fresh list object `l`. -/
def MsgBuffers.rebind (B : MsgBuffers) (i : ℕ) (l : List Msg) : MsgBuffers :=
  { store := B.store ++ [l], binding := B.binding.set i B.store.length }

/-- Initialisation `msg_buffer = [[]] * config.num_robots` in `loop`: `n` references to one
shared empty list. -/
def initMsgBuffer (n : ℕ) : MsgBuffers :=
  { store := [[]], binding := List.replicate n 0 }

/-- Constant `MSG_BUFFER_SIZE = 1792` in `loop`: the per-message maximum byte length. -/
def MSG_BUFFER_SIZE : ℕ := 1792

/-- Python `l[-k:]` (as used for the capacity trim). -/
def pyLastSlice {α : Type} (l : List α) (k : ℕ) : List α :=
  if k = 0 then l else l.drop (l.length - k)

/-- The recipient index range of `update_msg_buffer`:
`range(0, robot_id)` when `robot_id == num_of_robot`, else
`chain(range(0, robot_id - 1), range(robot_id, num_of_robot))`. -/
def deliveryRange (robot_id num_of_robot : ℕ) : List ℕ :=
  if robot_id = num_of_robot then List.range robot_id
  else List.range (robot_id - 1) ++ List.range' robot_id (num_of_robot - robot_id)

open Classical in
/-- One iteration of the `update_msg_buffer` loop body for recipient index `i`:
distance gate, uniform draw against the pass rate (one tape entry consumed per
in-range robot), truncation of the loop-carried `msg`, append, capacity trim. -/
noncomputable def relayStep (cfg : Config) (MSGSZ : ℕ) (ref_x ref_y : ℝ)
    (robot_states : List BotDiffDrive) (st : MsgBuffers × Msg × List ℝ) (i : ℕ) :
    MsgBuffers × Msg × List ℝ :=
  let B := st.1
  let msg := st.2.1
  let tape := st.2.2
  let curr_pos_x := (robot_states.getD i default).pos_x
  let curr_pos_y := (robot_states.getD i default).pos_y
  let d := Real.sqrt ((ref_x - curr_pos_x) ^ 2 + (ref_y - curr_pos_y) ^ 2)
  if d < cfg.comm_range then
    if tape.headD 0 < cfg.packet_pass_rate then
      let msg' := if MSGSZ < msg.length then msg.take MSGSZ else msg
      let B1 := B.appendAt i msg'
      let B2 := if cfg.msg_buffer_size < (B1.get i).length
                then B1.rebind i (pyLastSlice (B1.get i) cfg.msg_buffer_size)
                else B1
      (B2, msg', tape.tail)
    else (B, msg, tape.tail)
  else (B, msg, tape)

/-- Function `update_msg_buffer`, with the loop-carried `msg` variable and the stream of
`np.random.uniform()` draws made explicit (the function returns the buffers,
the possibly-truncated message, and the unconsumed tape). -/
noncomputable def update_msg_buffer_full (cfg : Config) (MSGSZ : ℕ)
    (msg_buffer : MsgBuffers) (num_of_robot : ℕ) (msg : Msg) (robot_id : ℕ)
    (robot_states : List BotDiffDrive) (tape : List ℝ) : MsgBuffers × Msg × List ℝ :=
  let ref_x := (robot_states.getD robot_id default).pos_x
  let ref_y := (robot_states.getD robot_id default).pos_y
  (deliveryRange robot_id num_of_robot).foldl
    (relayStep cfg MSGSZ ref_x ref_y robot_states) (msg_buffer, msg, tape)

/-- Return value of `update_msg_buffer` (the buffers). -/
noncomputable def update_msg_buffer (cfg : Config) (MSGSZ : ℕ)
    (msg_buffer : MsgBuffers) (num_of_robot : ℕ) (msg : Msg) (robot_id : ℕ)
    (robot_states : List BotDiffDrive) (tape : List ℝ) : MsgBuffers :=
  (update_msg_buffer_full cfg MSGSZ msg_buffer num_of_robot msg robot_id robot_states tape).1

/-- A robot at planar position `(x, y)` with heading `θ` (used in concrete
scenarios). -/
def mkBot (x y θ : ℝ) : BotDiffDrive := ⟨0, x, y, θ, 0, (0, 0, 0)⟩

/-- The relay scenario config: communication range `0.1`, pass rate `1`,
buffer capacity `10`, two robots. -/
def cfgRelay : Config :=
  { comm_range := 0.1, packet_pass_rate := 1, msg_buffer_size := 10,
    robot_diameter := 0.2, robot_radius := 0.1, arena_width := 2,
    arena_height := 2, max_motor_speed := 100, num_robots := 2 }

/-- The C5 scenario config: three robots, buffer capacity `1`, everything in
range. -/
def cfgTriple : Config :=
  { comm_range := 1, packet_pass_rate := 1, msg_buffer_size := 1,
    robot_diameter := 0.2, robot_radius := 0.1, arena_width := 2,
    arena_height := 2, max_motor_speed := 100, num_robots := 3 }

/-- C1 (code bug): two robots 0.05 apart, range 0.1, pass rate 1, with
independent (previously cleared) buffers.  A send from robot 1 delivers the
payload into robot 1's *own* buffer and not into robot 0's, although robot 0 is
the only other robot and is within range: the recipient range
`chain(range(0, robot_id - 1), range(robot_id, num_of_robot))` includes the
sender and skips robot `robot_id - 1` (compare the correct pattern
`chain(range(0, i), range(i + 1, num_of_robot))` used in `check_collision`). -/
theorem relay_recipient_bug :
    MsgBuffers.get (update_msg_buffer cfgRelay MSG_BUFFER_SIZE ⟨[[], []], [0, 1]⟩ 2 [42] 1
      [mkBot 0 0 0, mkBot 0.05 0 0] [0]) 1 = [[42]] ∧
    MsgBuffers.get (update_msg_buffer cfgRelay MSG_BUFFER_SIZE ⟨[[], []], [0, 1]⟩ 2 [42] 1
      [mkBot 0 0 0, mkBot 0.05 0 0] [0]) 0 = [] := by
  constructor <;>
  · unfold update_msg_buffer update_msg_buffer_full
    rw [show deliveryRange 1 2 = [1] from by decide]
    simp only [List.foldl_cons, List.foldl_nil]
    unfold relayStep
    dsimp only [List.getD_cons_zero, List.getD_cons_succ, mkBot]
    rw [show ((0.05:ℝ) - 0.05) ^ 2 + ((0:ℝ) - 0) ^ 2 = 0 from by norm_num, Real.sqrt_zero]
    rw [if_pos (show (0:ℝ) < cfgRelay.comm_range from by norm_num [cfgRelay])]
    rw [if_pos (show List.headD [(0:ℝ)] 0 < cfgRelay.packet_pass_rate from by
      norm_num [cfgRelay])]
    rw [if_neg (show ¬ (MSG_BUFFER_SIZE < List.length [42]) from by decide)]
    norm_num [MsgBuffers.appendAt, MsgBuffers.get, MsgBuffers.rebind, pyLastSlice, cfgRelay]

/-- C5 (code bug): with buffer capacity 1 and three co-located robots, one
send leaves robot 0's buffer holding 2 entries.  `msg_buffer = [[]] * n` makes
all entries reference one shared list; each delivery appends to that shared
list but the capacity trim `msg_buffer[i] = msg_buffer[i][-size:]` rebinds only
the recipient being processed, so aliased buffers are left over capacity. -/
theorem buffer_capacity_aliasing_bug :
    (MsgBuffers.get (update_msg_buffer cfgTriple MSG_BUFFER_SIZE (initMsgBuffer 3) 3 [7] 2
      [mkBot 0 0 0, mkBot 0 0 0, mkBot 0 0 0] [0, 0]) 0).length = 2 ∧
    cfgTriple.msg_buffer_size = 1 := by
  refine ⟨?_, rfl⟩
  unfold update_msg_buffer update_msg_buffer_full initMsgBuffer
  rw [show deliveryRange 2 3 = [0, 2] from by decide]
  simp only [List.foldl_cons, List.foldl_nil]
  have h0 : relayStep cfgTriple MSG_BUFFER_SIZE
      (List.getD [mkBot 0 0 0, mkBot 0 0 0, mkBot 0 0 0] 2 default).pos_x
      (List.getD [mkBot 0 0 0, mkBot 0 0 0, mkBot 0 0 0] 2 default).pos_y
      [mkBot 0 0 0, mkBot 0 0 0, mkBot 0 0 0]
      ({ store := [[]], binding := List.replicate 3 0 }, [7], [0, 0]) 0
      = ({ store := [[[7]]], binding := List.replicate 3 0 }, [7], [0]) := by
    unfold relayStep
    dsimp only [List.getD_cons_zero, List.getD_cons_succ, mkBot]
    rw [show ((0:ℝ) - 0) ^ 2 + ((0:ℝ) - 0) ^ 2 = 0 from by norm_num, Real.sqrt_zero]
    rw [if_pos (show (0:ℝ) < cfgTriple.comm_range from by norm_num [cfgTriple])]
    rw [if_pos (show List.headD [(0:ℝ), 0] 0 < cfgTriple.packet_pass_rate from by
      norm_num [cfgTriple])]
    rw [if_neg (show ¬ (MSG_BUFFER_SIZE < List.length [7]) from by decide)]
    norm_num [MsgBuffers.appendAt, MsgBuffers.get, MsgBuffers.rebind, pyLastSlice, cfgTriple,
      List.replicate]
  rw [h0]
  have h2 : relayStep cfgTriple MSG_BUFFER_SIZE
      (List.getD [mkBot 0 0 0, mkBot 0 0 0, mkBot 0 0 0] 2 default).pos_x
      (List.getD [mkBot 0 0 0, mkBot 0 0 0, mkBot 0 0 0] 2 default).pos_y
      [mkBot 0 0 0, mkBot 0 0 0, mkBot 0 0 0]
      ({ store := [[[7]]], binding := List.replicate 3 0 }, [7], [0]) 2
      = ({ store := [[[7], [7]], [[7]]], binding := [0, 0, 1] }, [7], []) := by
    unfold relayStep
    dsimp only [List.getD_cons_zero, List.getD_cons_succ, mkBot]
    rw [show ((0:ℝ) - 0) ^ 2 + ((0:ℝ) - 0) ^ 2 = 0 from by norm_num, Real.sqrt_zero]
    rw [if_pos (show (0:ℝ) < cfgTriple.comm_range from by norm_num [cfgTriple])]
    rw [if_pos (show List.headD [(0:ℝ)] 0 < cfgTriple.packet_pass_rate from by
      norm_num [cfgTriple])]
    rw [if_neg (show ¬ (MSG_BUFFER_SIZE < List.length [7]) from by decide)]
    norm_num [MsgBuffers.appendAt, MsgBuffers.get, MsgBuffers.rebind, pyLastSlice, cfgTriple,
      List.replicate]
  rw [h2]
  norm_num [MsgBuffers.get]

lemma relayStep_store_length_le (cfg : Config) (MSGSZ : ℕ) (rx ry : ℝ)
    (rs : List BotDiffDrive) (st : MsgBuffers × Msg × List ℝ) (i : ℕ) :
    st.1.store.length ≤ (relayStep cfg MSGSZ rx ry rs st i).1.store.length := by
  unfold relayStep MsgBuffers.rebind MsgBuffers.appendAt
  dsimp only
  split_ifs <;> simp [List.length_set]

lemma relayStep_binding_of_store_length_eq (cfg : Config) (MSGSZ : ℕ) (rx ry : ℝ)
    (rs : List BotDiffDrive) (st : MsgBuffers × Msg × List ℝ) (i : ℕ)
    (h : (relayStep cfg MSGSZ rx ry rs st i).1.store.length = st.1.store.length) :
    (relayStep cfg MSGSZ rx ry rs st i).1.binding = st.1.binding := by
  unfold relayStep MsgBuffers.rebind MsgBuffers.appendAt at h ⊢
  dsimp only at h ⊢
  split_ifs at h ⊢ <;> first | rfl | (simp [List.length_set] at h)

lemma relayFold_store_length_le (cfg : Config) (MSGSZ : ℕ) (rx ry : ℝ)
    (rs : List BotDiffDrive) :
    ∀ (l : List ℕ) (st : MsgBuffers × Msg × List ℝ),
      st.1.store.length ≤ (l.foldl (relayStep cfg MSGSZ rx ry rs) st).1.store.length
  | [], _ => le_refl _
  | i :: l, st => by
      rw [List.foldl_cons]
      exact le_trans (relayStep_store_length_le cfg MSGSZ rx ry rs st i)
        (relayFold_store_length_le cfg MSGSZ rx ry rs l _)

lemma relayFold_binding_of_store_length_eq (cfg : Config) (MSGSZ : ℕ) (rx ry : ℝ)
    (rs : List BotDiffDrive) :
    ∀ (l : List ℕ) (st : MsgBuffers × Msg × List ℝ),
      (l.foldl (relayStep cfg MSGSZ rx ry rs) st).1.store.length = st.1.store.length →
      (l.foldl (relayStep cfg MSGSZ rx ry rs) st).1.binding = st.1.binding
  | [], _, _ => rfl
  | i :: l, st, h => by
      rw [List.foldl_cons] at h ⊢
      have hm1 := relayStep_store_length_le cfg MSGSZ rx ry rs st i
      have hm2 := relayFold_store_length_le cfg MSGSZ rx ry rs l
        (relayStep cfg MSGSZ rx ry rs st i)
      rw [relayFold_binding_of_store_length_eq cfg MSGSZ rx ry rs l _ (by omega)]
      exact relayStep_binding_of_store_length_eq cfg MSGSZ rx ry rs st i (by omega)

lemma getD_replicate_zero : ∀ (n j : ℕ), (List.replicate n 0).getD j 0 = 0
  | 0, _ => by simp [List.getD]
  | _ + 1, 0 => rfl
  | n + 1, j + 1 => getD_replicate_zero n j

/-- C10: `msg_buffer = [[]] * config.num_robots` binds every robot's buffer
to one shared list, so as long as no buffer has been rebound (no eviction past
capacity, no explicit clear — equivalently the store still holds a single
cell), any payload present in one robot's buffer is present in every robot's
buffer, the sender's and out-of-range robots' included. -/
theorem buffer_aliasing_broadcast (cfg : Config) (MSGSZ n robot_id : ℕ) (msg m : Msg)
    (robots : List BotDiffDrive) (tape : List ℝ) (j : ℕ)
    (h1 : (update_msg_buffer cfg MSGSZ (initMsgBuffer n) n msg robot_id
      robots tape).store.length = 1)
    (h2 : m ∈ MsgBuffers.get (update_msg_buffer cfg MSGSZ (initMsgBuffer n) n msg robot_id
      robots tape) j) :
    (∀ i i', (initMsgBuffer n).binding.getD i 0 = (initMsgBuffer n).binding.getD i' 0) ∧
    ∀ k, m ∈ MsgBuffers.get (update_msg_buffer cfg MSGSZ (initMsgBuffer n) n msg robot_id
      robots tape) k := by
  have hbind : (update_msg_buffer cfg MSGSZ (initMsgBuffer n) n msg robot_id
      robots tape).binding = (initMsgBuffer n).binding := by
    unfold update_msg_buffer update_msg_buffer_full at h1 ⊢
    exact relayFold_binding_of_store_length_eq _ _ _ _ _ _ _ h1
  have hget : ∀ a, MsgBuffers.get (update_msg_buffer cfg MSGSZ (initMsgBuffer n) n msg robot_id
      robots tape) a = (update_msg_buffer cfg MSGSZ (initMsgBuffer n) n msg robot_id
      robots tape).store.getD 0 [] := by
    intro a
    unfold MsgBuffers.get
    rw [hbind]
    simp [initMsgBuffer, getD_replicate_zero]
  constructor
  · intro i i'
    simp [initMsgBuffer, getD_replicate_zero]
  · intro k
    rw [hget k]
    rw [hget j] at h2
    exact h2

/-- Witness for `buffer_aliasing_broadcast`: robot 0 (two robots 0.05 apart,
range 0.1, pass rate 1) sends `[9]` starting from the initial aliased buffers;
the payload lands in robot 1's buffer and, by aliasing, is also in robot 0's
(the sender's) buffer. -/
theorem buffer_aliasing_broadcast_witness :
    [9] ∈ MsgBuffers.get (update_msg_buffer cfgRelay MSG_BUFFER_SIZE (initMsgBuffer 2) 2 [9] 0
      [mkBot 0 0 0, mkBot 0.05 0 0] [0, 0]) 0 := by
  have hres : update_msg_buffer cfgRelay MSG_BUFFER_SIZE (initMsgBuffer 2) 2 [9] 0
      [mkBot 0 0 0, mkBot 0.05 0 0] [0, 0]
      = { store := [[[9], [9]]], binding := List.replicate 2 0 } := by
    unfold update_msg_buffer update_msg_buffer_full initMsgBuffer
    rw [show deliveryRange 0 2 = [0, 1] from by decide]
    simp only [List.foldl_cons, List.foldl_nil]
    have h0 : relayStep cfgRelay MSG_BUFFER_SIZE
        (List.getD [mkBot 0 0 0, mkBot 0.05 0 0] 0 default).pos_x
        (List.getD [mkBot 0 0 0, mkBot 0.05 0 0] 0 default).pos_y
        [mkBot 0 0 0, mkBot 0.05 0 0]
        ({ store := [[]], binding := List.replicate 2 0 }, [9], [0, 0]) 0
        = ({ store := [[[9]]], binding := List.replicate 2 0 }, [9], [0]) := by
      unfold relayStep
      dsimp only [List.getD_cons_zero, List.getD_cons_succ, mkBot]
      rw [show ((0:ℝ) - 0) ^ 2 + ((0:ℝ) - 0) ^ 2 = 0 from by norm_num, Real.sqrt_zero]
      rw [if_pos (show (0:ℝ) < cfgRelay.comm_range from by norm_num [cfgRelay])]
      rw [if_pos (show List.headD [(0:ℝ), 0] 0 < cfgRelay.packet_pass_rate from by
        norm_num [cfgRelay])]
      rw [if_neg (show ¬ (MSG_BUFFER_SIZE < List.length [9]) from by decide)]
      norm_num [MsgBuffers.appendAt, MsgBuffers.get, MsgBuffers.rebind, pyLastSlice, cfgRelay,
        List.replicate]
    rw [h0]
    have h1 : relayStep cfgRelay MSG_BUFFER_SIZE
        (List.getD [mkBot 0 0 0, mkBot 0.05 0 0] 0 default).pos_x
        (List.getD [mkBot 0 0 0, mkBot 0.05 0 0] 0 default).pos_y
        [mkBot 0 0 0, mkBot 0.05 0 0]
        ({ store := [[[9]]], binding := List.replicate 2 0 }, [9], [0]) 1
        = ({ store := [[[9], [9]]], binding := List.replicate 2 0 }, [9], []) := by
      unfold relayStep
      dsimp only [List.getD_cons_zero, List.getD_cons_succ, mkBot]
      rw [show ((0:ℝ) - 0.05) ^ 2 + ((0:ℝ) - 0) ^ 2 = (0.05:ℝ) ^ 2 from by norm_num,
        Real.sqrt_sq (by norm_num : (0:ℝ) ≤ 0.05)]
      rw [if_pos (show (0.05:ℝ) < cfgRelay.comm_range from by norm_num [cfgRelay])]
      rw [if_pos (show List.headD [(0:ℝ)] 0 < cfgRelay.packet_pass_rate from by
        norm_num [cfgRelay])]
      rw [if_neg (show ¬ (MSG_BUFFER_SIZE < List.length [9]) from by decide)]
      norm_num [MsgBuffers.appendAt, MsgBuffers.get, MsgBuffers.rebind, pyLastSlice, cfgRelay,
        List.replicate]
    rw [h1]
  have h1 : (update_msg_buffer cfgRelay MSG_BUFFER_SIZE (initMsgBuffer 2) 2 [9] 0
      [mkBot 0 0 0, mkBot 0.05 0 0] [0, 0]).store.length = 1 := by
    rw [hres]
    rfl
  have h2 : [9] ∈ MsgBuffers.get (update_msg_buffer cfgRelay MSG_BUFFER_SIZE (initMsgBuffer 2)
      2 [9] 0 [mkBot 0 0 0, mkBot 0.05 0 0] [0, 0]) 1 := by
    rw [hres]
    simp [MsgBuffers.get, List.replicate]
  exact (buffer_aliasing_broadcast cfgRelay MSG_BUFFER_SIZE 2 0 [9] [9]
    [mkBot 0 0 0, mkBot 0.05 0 0] [0, 0] 1 h1 h2).2 0

/-! ## Protocol codec (`msg_decode` and the wire format of §4.1) -/

/-- A decoded protocol field: unsigned integer or opaque string. -/
inductive Field where
  | intF (n : ℕ)
  | strF (s : List Char)
deriving DecidableEq

/-- Binary digit test. -/
def isBinDigit (c : Char) : Bool := c = '0' || c = '1'

/-- Value of a binary-digit string (what `int(num, 2)` computes after the
`0b` prefix). -/
def binVal (s : List Char) : ℕ :=
  s.foldl (fun acc c => 2 * acc + (if c = '1' then 1 else 0)) 0

/-- Modelled from the spec: most-significant-bit-first binary digit rendering
(Python `bin` without its `0b` prefix), fuelled for structural recursion. -/
def natBinAux : ℕ → ℕ → List Char
  | 0, _ => []
  | fuel + 1, n =>
    if n < 2 then [if n = 1 then '1' else '0']
    else natBinAux fuel (n / 2) ++ [if n % 2 = 1 then '1' else '0']

def natBin (n : ℕ) : List Char := natBinAux (n + 1) n

/-- Modelled from the spec: the client-side encoder is not part of
`simulator.py`; §4.1/§6 of the spec say every field is transmitted as the
marker `0b` followed by binary digits (integers, as Python's `bin`) or by raw
text (strings). -/
def encodeField : Field → List Char
  | .intF n => '0' :: 'b' :: natBin n
  | .strF s => '0' :: 'b' :: s

/-- Modelled from the spec: a frame is the concatenation of its encoded
fields. -/
def encode (fs : List Field) : List Char := (fs.map encodeField).flatten

/-- Positions of the `re.finditer('0b', packet)` matches, starting from index
`i` (the pattern `0b` cannot overlap itself, so the scan sees every
occurrence). -/
def markerPosAux : List Char → ℕ → List ℕ
  | [], _ => []
  | c :: rest, i =>
    if c = '0' ∧ rest.headD 'x' = 'b' then i :: markerPosAux rest (i + 1)
    else markerPosAux rest (i + 1)

def markerPos (s : List Char) : List ℕ := markerPosAux s 0

lemma markerPosAux_cons (c : Char) (rest : List Char) (i : ℕ) :
    markerPosAux (c :: rest) i =
      if c = '0' ∧ rest.headD 'x' = 'b' then i :: markerPosAux rest (i + 1)
      else markerPosAux rest (i + 1) := rfl

/-- The slices `packet[result[i]:result[i+1]]` of `msg_decode`, with
`len(packet)` appended as the final bound. -/
def sliceFields (s : List Char) : List (List Char) :=
  let ps := markerPos s ++ [s.length]
  (ps.zip ps.tail).map fun p => (s.drop p.1).take (p.2 - p.1)

/-- Classification and extraction of one slice: `num[2]` picks integer
(binary parse, `ValueError` on a non-digit = `none`) versus string
(`num[2:]`); a slice with no third character raises `IndexError` = `none`. -/
def decodeField (num : List Char) : Option Field :=
  match num with
  | _ :: _ :: c2 :: rest =>
    if c2 = '1' ∨ c2 = '0' then
      if (c2 :: rest).all isBinDigit then some (.intF (binVal (c2 :: rest))) else none
    else some (.strF (c2 :: rest))
  | _ => none

/-- Function `msg_decode`: scan for markers, slice, classify each slice; any Python
exception while doing so is `none`. -/
def msg_decode (packet : List Char) : Option (List Field) :=
  (sliceFields packet).mapM decodeField

/-- Does the string contain the marker `0b`? -/
def hasMarker : List Char → Bool
  | [] => false
  | c :: rest => if c = '0' ∧ rest.headD 'x' = 'b' then true else hasMarker rest

/-- The side conditions under which a field survives the wire format: an
integer always does; a string must be non-empty, must not start with a binary
digit (else it is classified as an integer), and must not contain the marker
`0b` (else the scan splits it). -/
def validField : Field → Bool
  | .intF _ => true
  | .strF s =>
    if s = [] then false
    else if s.headD 'x' = '0' ∨ s.headD 'x' = '1' then false
    else !hasMarker s

lemma binVal_append (xs : List Char) (c : Char) :
    binVal (xs ++ [c]) = 2 * binVal xs + (if c = '1' then 1 else 0) := by
  unfold binVal
  rw [List.foldl_append]
  rfl

lemma natBinAux_spec : ∀ fuel n, n < fuel →
    binVal (natBinAux fuel n) = n ∧ natBinAux fuel n ≠ [] ∧
    (natBinAux fuel n).all isBinDigit = true
  | 0, n, h => absurd h (Nat.not_lt_zero n)
  | fuel + 1, n, h => by
    unfold natBinAux
    by_cases h2 : n < 2
    · rw [if_pos h2]
      refine ⟨?_, by simp, ?_⟩
      · interval_cases n <;> rfl
      · interval_cases n <;> rfl
    · rw [if_neg h2]
      have hrec := natBinAux_spec fuel (n / 2) (by omega)
      refine ⟨?_, by simp, ?_⟩
      · rw [binVal_append, hrec.1]
        by_cases hodd : n % 2 = 1
        · rw [if_pos hodd]
          simp
          omega
        · rw [if_neg hodd]
          simp
          omega
      · rw [List.all_append]
        rw [hrec.2.2]
        simp [isBinDigit]
        omega

lemma natBin_binVal (n : ℕ) : binVal (natBin n) = n := (natBinAux_spec (n + 1) n (by omega)).1

lemma natBin_ne_nil (n : ℕ) : natBin n ≠ [] := (natBinAux_spec (n + 1) n (by omega)).2.1

lemma natBin_all_digits (n : ℕ) : (natBin n).all isBinDigit = true :=
  (natBinAux_spec (n + 1) n (by omega)).2.2

lemma hasMarker_of_all_digits : ∀ s : List Char, s.all isBinDigit = true → hasMarker s = false
  | [], _ => rfl
  | c :: rest, h => by
    rw [List.all_cons, Bool.and_eq_true] at h
    unfold hasMarker
    rw [if_neg, hasMarker_of_all_digits rest h.2]
    rintro ⟨-, hb⟩
    cases rest with
    | nil => simp at hb
    | cons d tl =>
      have hd := h.2
      rw [List.all_cons, Bool.and_eq_true] at hd
      rw [List.headD_cons] at hb
      rw [hb] at hd
      simp [isBinDigit] at hd

lemma add_shift_comp (i : ℕ) :
    ((fun x => x + i) ∘ (fun x : ℕ => x + 1)) = fun x : ℕ => x + (i + 1) :=
  funext fun x => by
    simp only [Function.comp_apply]
    omega

lemma markerPosAux_shift : ∀ (s : List Char) (i : ℕ),
    markerPosAux s i = (markerPosAux s 0).map (· + i)
  | [], _ => rfl
  | c :: rest, i => by
    unfold markerPosAux
    have h1 := markerPosAux_shift rest (i + 1)
    have h0 := markerPosAux_shift rest 1
    rw [h1, h0]
    split_ifs with hc
    · rw [List.map_cons, List.map_map, Nat.zero_add, add_shift_comp]
    · rw [List.map_map, add_shift_comp]

lemma markerPosAux_append (xs ys : List Char) (hx : hasMarker xs = false)
    (hy : ys.headD 'x' ≠ 'b') : ∀ i,
    markerPosAux (xs ++ ys) i = markerPosAux ys (i + xs.length) := by
  induction xs with
  | nil => intro i; simp
  | cons c rest ih =>
    intro i
    unfold hasMarker at hx
    have hx' : hasMarker rest = false := by
      by_cases hc : c = '0' ∧ rest.headD 'x' = 'b'
      · rw [if_pos hc] at hx; exact absurd hx (by simp)
      · rwa [if_neg hc] at hx
    have hnm : ¬(c = '0' ∧ (rest ++ ys).headD 'x' = 'b') := by
      rintro ⟨hc0, hcb⟩
      cases rest with
      | nil =>
        rw [List.nil_append] at hcb
        exact hy hcb
      | cons d tl =>
        rw [List.cons_append, List.headD_cons] at hcb
        rw [if_pos ⟨hc0, by rw [List.headD_cons]; exact hcb⟩] at hx
        simp at hx
    rw [List.cons_append, markerPosAux_cons, if_neg hnm, ih hx' (i + 1)]
    refine congrArg _ ?_
    simp
    omega

/-- The body (after the `0b` marker) of an encoded field. -/
def fieldBody : Field → List Char
  | .intF n => natBin n
  | .strF s => s

lemma encodeField_body (f : Field) : encodeField f = '0' :: 'b' :: fieldBody f := by
  cases f <;> rfl

lemma encode_cons (f : Field) (fs : List Field) :
    encode (f :: fs) = encodeField f ++ encode fs := by
  simp [encode]

lemma encode_headD_ne_b : ∀ fs : List Field, (encode fs).headD 'x' ≠ 'b'
  | [] => by simp [encode]
  | f :: fs => by
    rw [encode_cons, encodeField_body, List.cons_append, List.headD_cons]
    simp

lemma fieldBody_no_marker (f : Field) (hf : validField f = true) :
    hasMarker (fieldBody f) = false := by
  cases f with
  | intF n => exact hasMarker_of_all_digits (natBin n) (natBin_all_digits n)
  | strF s =>
    have hf' : (if s = [] then false
        else if s.headD 'x' = '0' ∨ s.headD 'x' = '1' then false else !hasMarker s) = true := hf
    split_ifs at hf'
    simpa [fieldBody] using hf'

lemma markerPos_encode_cons (f : Field) (fs : List Field) (hf : validField f = true) :
    markerPos (encode (f :: fs)) =
      0 :: (markerPos (encode fs)).map (· + (encodeField f).length) := by
  rw [encode_cons, encodeField_body]
  show markerPosAux (('0' :: 'b' :: fieldBody f) ++ encode fs) 0 = _
  rw [List.cons_append, List.cons_append, markerPosAux_cons,
    if_pos ⟨rfl, by rw [List.headD_cons]⟩, markerPosAux_cons, if_neg (by simp)]
  rw [markerPosAux_append (fieldBody f) (encode fs) (fieldBody_no_marker f hf)
    (encode_headD_ne_b fs) 2]
  rw [markerPosAux_shift (encode fs) (2 + (fieldBody f).length)]
  rw [show ('0' :: 'b' :: fieldBody f).length = 2 + (fieldBody f).length from by simp; omega]
  rfl

lemma zip_cons_tail_map (g : ℕ → ℕ) (a b : ℕ) (M : List ℕ) (hb : b = g a) :
    (b :: M.map g).zip (M.map g) = ((a :: M).zip (a :: M).tail).map (Prod.map g g) := by
  subst hb
  calc (g a :: M.map g).zip (M.map g)
      = ((a :: M).map g).zip ((a :: M).tail.map g) := rfl
    _ = ((a :: M).zip (a :: M).tail).map (Prod.map g g) := List.zip_map g g _ _

lemma slice_shift_eq (field E : List Char) :
    ((fun p : ℕ × ℕ => List.take (p.2 - p.1) (List.drop p.1 (field ++ E))) ∘
      Prod.map (· + field.length) (· + field.length))
    = fun p : ℕ × ℕ => List.take (p.2 - p.1) (List.drop p.1 E) := by
  funext p
  simp only [Function.comp_apply, Prod.map_fst, Prod.map_snd]
  rw [Nat.add_comm p.1 field.length, List.drop_append]
  congr 1
  omega

lemma sliceFields_append_of_markerPos (field E : List Char)
    (hm : markerPos (field ++ E) = 0 :: (markerPos E).map (· + field.length))
    (hhead : (markerPos E = [] ∧ E = []) ∨ (∃ t, markerPos E = 0 :: t)) :
    sliceFields (field ++ E) = field :: sliceFields E := by
  unfold sliceFields
  rw [hm, List.length_append]
  rcases hhead with ⟨hP, hE⟩ | ⟨t, hP⟩
  · subst hE
    rw [hP]
    simp [List.take_length]
  · rw [hP]
    dsimp only
    rw [List.cons_append, Nat.add_comm field.length E.length]
    rw [show List.map (· + field.length) (0 :: t) ++ [E.length + field.length]
        = List.map (· + field.length) (0 :: (t ++ [E.length])) from by simp]
    rw [List.map_cons]
    dsimp only [List.tail_cons]
    rw [List.zip_cons_cons, List.map_cons]
    rw [zip_cons_tail_map (· + field.length) 0 (0 + field.length) (t ++ [E.length]) rfl,
      List.map_map, slice_shift_eq]
    rw [show ((0 :: t) ++ [E.length]) = 0 :: (t ++ [E.length]) from List.cons_append _ _ _]
    simp [List.take_left]

lemma validField_strF (s : List Char) (h : validField (.strF s) = true) :
    s ≠ [] ∧ s.headD 'x' ≠ '0' ∧ s.headD 'x' ≠ '1' ∧ hasMarker s = false := by
  have h' : (if s = [] then false
      else if s.headD 'x' = '0' ∨ s.headD 'x' = '1' then false else !hasMarker s) = true := h
  by_cases h1 : s = []
  · rw [if_pos h1] at h'
    simp at h'
  rw [if_neg h1] at h'
  by_cases h2 : s.headD 'x' = '0' ∨ s.headD 'x' = '1'
  · rw [if_pos h2] at h'
    simp at h'
  rw [if_neg h2] at h'
  push_neg at h2
  exact ⟨h1, h2.1, h2.2, by simpa using h'⟩

lemma decodeField_encodeField (f : Field) (hf : validField f = true) :
    decodeField (encodeField f) = some f := by
  cases f with
  | intF n =>
    obtain ⟨c, rest, hcr⟩ : ∃ c rest, natBin n = c :: rest := by
      cases hnb : natBin n with
      | nil => exact absurd hnb (natBin_ne_nil n)
      | cons c rest => exact ⟨c, rest, rfl⟩
    have hall : (c :: rest).all isBinDigit = true := by
      rw [← hcr]
      exact natBin_all_digits n
    have hc : c = '1' ∨ c = '0' := by
      have hcd := hall
      rw [List.all_cons, Bool.and_eq_true] at hcd
      have := hcd.1
      simp [isBinDigit] at this
      tauto
    show decodeField ('0' :: 'b' :: natBin n) = some (Field.intF n)
    rw [hcr]
    show (if c = '1' ∨ c = '0' then
        if (c :: rest).all isBinDigit then some (Field.intF (binVal (c :: rest))) else none
      else some (Field.strF (c :: rest))) = some (Field.intF n)
    rw [if_pos hc, if_pos hall, ← hcr, natBin_binVal]
  | strF s =>
    obtain ⟨hne, h0, h1, -⟩ := validField_strF s hf
    obtain ⟨c, rest, hcr⟩ : ∃ c rest, s = c :: rest := by
      cases s with
      | nil => exact absurd rfl hne
      | cons c rest => exact ⟨c, rest, rfl⟩
    subst hcr
    rw [List.headD_cons] at h0 h1
    show (if c = '1' ∨ c = '0' then
        if (c :: rest).all isBinDigit then some (Field.intF (binVal (c :: rest))) else none
      else some (Field.strF (c :: rest))) = some (Field.strF (c :: rest))
    rw [if_neg (by tauto)]

/-- C6 (amended): decoding inverts encoding for every frame whose string
fields are non-empty, do not start with a binary digit, and do not contain the
marker `0b` anywhere in their text (a string payload containing `0b` is split
by the marker scan and the round trip fails, see the counterexample). -/
theorem msg_codec_roundtrip : ∀ fs : List Field, (∀ f ∈ fs, validField f = true) →
    msg_decode (encode fs) = some fs
  | [], _ => rfl
  | f :: fs, h => by
    have hf : validField f = true := h f (List.mem_cons_self f fs)
    have hfs : ∀ g ∈ fs, validField g = true := fun g hg => h g (List.mem_cons_of_mem f hg)
    have hm := markerPos_encode_cons f fs hf
    rw [encode_cons] at hm
    have hhead : (markerPos (encode fs) = [] ∧ encode fs = []) ∨
        ∃ t, markerPos (encode fs) = 0 :: t := by
      cases fs with
      | nil => exact Or.inl ⟨rfl, rfl⟩
      | cons g gs =>
        exact Or.inr ⟨_, markerPos_encode_cons g gs (hfs g (List.mem_cons_self g gs))⟩
    have ih := msg_codec_roundtrip fs hfs
    unfold msg_decode at ih ⊢
    rw [encode_cons, sliceFields_append_of_markerPos (encodeField f) (encode fs) hm hhead]
    rw [List.mapM_cons, decodeField_encodeField f hf, ih]
    rfl

/-- Witness for `msg_codec_roundtrip`: the mixed frame
`[int 5, string "hi", int 0]` round-trips. -/
theorem msg_codec_roundtrip_witness :
    msg_decode (encode [Field.intF 5, Field.strF ['h', 'i'], Field.intF 0])
      = some [Field.intF 5, Field.strF ['h', 'i'], Field.intF 0] :=
  msg_codec_roundtrip [Field.intF 5, Field.strF ['h', 'i'], Field.intF 0] (by decide)

/-- C6 counterexample: the single-field frame whose string is `a0b` (first
character not a binary digit, as the claim requires) does not round-trip: the
decoder's marker scan finds the `0b` inside the text, splits the field, and
faults (`IndexError` on the final two-character slice), so decoding yields
`none`, not the original frame. -/
theorem msg_codec_roundtrip_counterexample :
    msg_decode (encode [Field.strF ['a', '0', 'b']]) = none ∧
    msg_decode (encode [Field.strF ['a', '0', 'b']]) ≠ some [Field.strF ['a', '0', 'b']] := by
  constructor
  · decide
  · decide

/-! ## World integration (`check_collision` and `integrate_world`) -/

/-- Index range `chain(range(0, i), range(i + 1, num_of_robot))`: every robot index other
than `i`. -/
def othersRange (i num_of_robot : ℕ) : List ℕ :=
  List.range i ++ List.range' (i + 1) (num_of_robot - (i + 1))

open Classical in
/-- Function `check_collision`: `True` (no collision) unless some *other* robot's
currently stored position is within `robot_diameter` of the proposed position
`pos = (angle, x, y)`. -/
noncomputable def check_collision (cfg : Config) (pos : ℝ × ℝ × ℝ)
    (robot_states : List BotDiffDrive) (i num_of_robot : ℕ) : Bool :=
  (othersRange i num_of_robot).all fun j =>
    let x1 := (robot_states.getD j default).pos_x
    let y1 := (robot_states.getD j default).pos_y
    !(decide (Real.sqrt ((x1 - pos.2.1) ^ 2 + (y1 - pos.2.2) ^ 2) ≤ cfg.robot_diameter))

/-- The clamp `x = max(x, lo); x = min(x, hi)` — the wall clamp in `integrate_world`. -/
noncomputable def clip (x lo hi : ℝ) : ℝ := min (max x lo) hi

/-- One iteration `i` of the `integrate_world` loop: integrate, store the new
heading, keep the new position only if the collision check passes, clamp to the
arena, floor the clock to `sim_time`.  The robot list is mutated in place, so
iteration `i` sees robots `0..i-1` already updated. -/
noncomputable def integrateStep (cfg : Config) (num_of_robot : ℕ)
    (wheel_vel_arr : List (ℝ × ℝ)) (dt sim_time : ℝ)
    (robot_states : List BotDiffDrive) (i : ℕ) : List BotDiffDrive :=
  let b := robot_states.getD i default
  let w := wheel_vel_arr.getD i (0, 0)
  let pos := b.integrate w.1 w.2 dt
  let b1 := { b with pos_angle := pos.1 }
  let rs1 := robot_states.set i b1
  let b2 := if check_collision cfg pos rs1 i num_of_robot
            then { b1 with pos_x := pos.2.1, pos_y := pos.2.2 } else b1
  let b3 := { b2 with
    pos_x := clip b2.pos_x (-cfg.arena_width / 2 + cfg.robot_radius)
      (cfg.arena_width / 2 - cfg.robot_radius),
    pos_y := clip b2.pos_y (-cfg.arena_height / 2 + cfg.robot_radius)
      (cfg.arena_height / 2 - cfg.robot_radius),
    clk := max b2.clk sim_time }
  rs1.set i b3

/-- Function `integrate_world`: the loop `for i in range(0, num_of_robot)`. -/
noncomputable def integrate_world (cfg : Config) (robot_states : List BotDiffDrive)
    (num_of_robot : ℕ) (wheel_vel_arr : List (ℝ × ℝ)) (dt sim_time : ℝ) :
    List BotDiffDrive :=
  (List.range num_of_robot).foldl (integrateStep cfg num_of_robot wheel_vel_arr dt sim_time)
    robot_states

/-- The integration loop truncated after its first `k` iterations. -/
noncomputable def integrateUpTo (cfg : Config) (num_of_robot : ℕ)
    (wheel_vel_arr : List (ℝ × ℝ)) (dt sim_time : ℝ)
    (robot_states : List BotDiffDrive) (k : ℕ) : List BotDiffDrive :=
  (List.range k).foldl (integrateStep cfg num_of_robot wheel_vel_arr dt sim_time) robot_states

lemma integrate_world_eq_upTo (cfg : Config) (rs : List BotDiffDrive) (n : ℕ)
    (w : List (ℝ × ℝ)) (dt st : ℝ) :
    integrate_world cfg rs n w dt st = integrateUpTo cfg n w dt st rs n := rfl

lemma getD_set_self {α : Type} (l : List α) (i : ℕ) (a d : α) (h : i < l.length) :
    (l.set i a).getD i d = a := by
  rw [List.getD_eq_getElem?_getD, List.getElem?_set_self]
  · rfl
  · exact h

lemma getD_set_ne {α : Type} (l : List α) (i j : ℕ) (a d : α) (h : i ≠ j) :
    (l.set i a).getD j d = l.getD j d := by
  rw [List.getD_eq_getElem?_getD, List.getElem?_set_ne h, ← List.getD_eq_getElem?_getD]

lemma integrateStep_length (cfg : Config) (n : ℕ) (w : List (ℝ × ℝ)) (dt st : ℝ)
    (rs : List BotDiffDrive) (i : ℕ) :
    (integrateStep cfg n w dt st rs i).length = rs.length := by
  unfold integrateStep
  dsimp only
  rw [List.length_set, List.length_set]

lemma integrateStep_getD_ne (cfg : Config) (n : ℕ) (w : List (ℝ × ℝ)) (dt st : ℝ)
    (rs : List BotDiffDrive) (i j : ℕ) (h : i ≠ j) :
    (integrateStep cfg n w dt st rs i).getD j default = rs.getD j default := by
  unfold integrateStep
  dsimp only
  rw [getD_set_ne _ _ _ _ _ h, getD_set_ne _ _ _ _ _ h]

lemma integrateUpTo_succ (cfg : Config) (n : ℕ) (w : List (ℝ × ℝ)) (dt st : ℝ)
    (rs : List BotDiffDrive) (k : ℕ) :
    integrateUpTo cfg n w dt st rs (k + 1)
      = integrateStep cfg n w dt st (integrateUpTo cfg n w dt st rs k) k := by
  unfold integrateUpTo
  rw [List.range_succ, List.foldl_append, List.foldl_cons, List.foldl_nil]

lemma integrateUpTo_length (cfg : Config) (n : ℕ) (w : List (ℝ × ℝ)) (dt st : ℝ)
    (rs : List BotDiffDrive) : ∀ k, (integrateUpTo cfg n w dt st rs k).length = rs.length
  | 0 => rfl
  | k + 1 => by
    rw [integrateUpTo_succ, integrateStep_length, integrateUpTo_length cfg n w dt st rs k]

lemma integrateUpTo_getD_of_le (cfg : Config) (n : ℕ) (w : List (ℝ × ℝ)) (dt st : ℝ)
    (rs : List BotDiffDrive) : ∀ k j, k ≤ j →
    (integrateUpTo cfg n w dt st rs k).getD j default = rs.getD j default
  | 0, _, _ => rfl
  | k + 1, j, h => by
    rw [integrateUpTo_succ, integrateStep_getD_ne _ _ _ _ _ _ _ _ (by omega)]
    exact integrateUpTo_getD_of_le cfg n w dt st rs k j (by omega)

lemma integrateUpTo_getD_stable (cfg : Config) (n : ℕ) (w : List (ℝ × ℝ)) (dt st : ℝ)
    (rs : List BotDiffDrive) (j k : ℕ) (hjk : j < k) : ∀ m, k ≤ m →
    (integrateUpTo cfg n w dt st rs m).getD j default
      = (integrateUpTo cfg n w dt st rs k).getD j default := by
  intro m
  induction m with
  | zero => intro h; omega
  | succ m ih =>
    intro h
    rcases Nat.lt_or_ge k (m + 1) with hlt | hge
    · rw [integrateUpTo_succ, integrateStep_getD_ne _ _ _ _ _ _ _ _ (by omega)]
      exact ih (by omega)
    · have : k = m + 1 := by omega
      rw [this]

lemma clip_mem (x lo hi : ℝ) (h : lo ≤ hi) : lo ≤ clip x lo hi ∧ clip x lo hi ≤ hi := by
  unfold clip
  constructor
  · exact le_min (le_max_right x lo) h
  · exact min_le_right _ _

/-- C7: after an `integrate_world` tick, every processed robot's `x` lies in
`[-arena_width/2 + robot_radius, arena_width/2 - robot_radius]` and its `y` in
`[-arena_height/2 + robot_radius, arena_height/2 - robot_radius]` (the clamp is
applied independently per axis; the interval bounds must be ordered, i.e. the
arena is at least one robot wide). -/
theorem integrate_world_bounds (cfg : Config) (rs : List BotDiffDrive) (n : ℕ)
    (w : List (ℝ × ℝ)) (dt st : ℝ) (i : ℕ) (hi : i < n) (hlen : n ≤ rs.length)
    (hx : -cfg.arena_width / 2 + cfg.robot_radius ≤ cfg.arena_width / 2 - cfg.robot_radius)
    (hy : -cfg.arena_height / 2 + cfg.robot_radius ≤ cfg.arena_height / 2 - cfg.robot_radius) :
    (-cfg.arena_width / 2 + cfg.robot_radius
        ≤ ((integrate_world cfg rs n w dt st).getD i default).pos_x ∧
      ((integrate_world cfg rs n w dt st).getD i default).pos_x
        ≤ cfg.arena_width / 2 - cfg.robot_radius) ∧
    (-cfg.arena_height / 2 + cfg.robot_radius
        ≤ ((integrate_world cfg rs n w dt st).getD i default).pos_y ∧
      ((integrate_world cfg rs n w dt st).getD i default).pos_y
        ≤ cfg.arena_height / 2 - cfg.robot_radius) := by
  have hstable := integrateUpTo_getD_stable cfg n w dt st rs i (i + 1) (by omega) n (by omega)
  rw [integrate_world_eq_upTo, hstable, integrateUpTo_succ]
  set rsi := integrateUpTo cfg n w dt st rs i with hrsi
  have hleni : rsi.length = rs.length := integrateUpTo_length cfg n w dt st rs i
  unfold integrateStep
  dsimp only
  rw [getD_set_self _ _ _ _ (by rw [List.length_set, hleni]; omega)]
  exact ⟨clip_mem _ _ _ hx, clip_mem _ _ _ hy⟩

/-- Witness for `integrate_world_bounds`: one stationary robot in the 2x2 arena
with robot radius 0.1 ends the tick inside `[-0.9, 0.9]` on both axes. -/
theorem integrate_world_bounds_witness :
    (-cfgRelay.arena_width / 2 + cfgRelay.robot_radius
        ≤ ((integrate_world cfgRelay [mkBot 0 0 0] 1 [(0, 0)] 1 0).getD 0 default).pos_x ∧
      ((integrate_world cfgRelay [mkBot 0 0 0] 1 [(0, 0)] 1 0).getD 0 default).pos_x
        ≤ cfgRelay.arena_width / 2 - cfgRelay.robot_radius) ∧
    (-cfgRelay.arena_height / 2 + cfgRelay.robot_radius
        ≤ ((integrate_world cfgRelay [mkBot 0 0 0] 1 [(0, 0)] 1 0).getD 0 default).pos_y ∧
      ((integrate_world cfgRelay [mkBot 0 0 0] 1 [(0, 0)] 1 0).getD 0 default).pos_y
        ≤ cfgRelay.arena_height / 2 - cfgRelay.robot_radius) :=
  integrate_world_bounds cfgRelay [mkBot 0 0 0] 1 [(0, 0)] 1 0 0 (by omega) (by simp)
    (by norm_num [cfgRelay]) (by norm_num [cfgRelay])

/-- The pose robot `j` proposes this tick (computed from its pre-tick state:
robot `j` is first touched by the loop at its own iteration). -/
noncomputable def proposedPose (rs : List BotDiffDrive) (w : List (ℝ × ℝ)) (dt : ℝ)
    (j : ℕ) : ℝ × ℝ × ℝ :=
  (rs.getD j default).integrate (w.getD j (0, 0)).1 (w.getD j (0, 0)).2 dt

lemma check_collision_iff (cfg : Config) (pos : ℝ × ℝ × ℝ) (rs : List BotDiffDrive)
    (i n : ℕ) :
    check_collision cfg pos rs i n = true ↔
      ∀ j ∈ othersRange i n,
        ¬ (Real.sqrt (((rs.getD j default).pos_x - pos.2.1) ^ 2 +
            ((rs.getD j default).pos_y - pos.2.2) ^ 2) ≤ cfg.robot_diameter) := by
  unfold check_collision
  simp [List.all_eq_true, Bool.not_eq_true', decide_eq_false_iff_not]

lemma mem_othersRange_of_lt (i j n : ℕ) (hij : i < j) (_ : j < n) : i ∈ othersRange j n := by
  unfold othersRange
  rw [List.mem_append, List.mem_range]
  exact Or.inl hij

/-- C3 (amended): robot `i`'s collision check runs against the robot array
as it stands when iteration `i` executes — robots with smaller index are
already updated this tick.  A rejected translation is rejected entirely (x and
y keep their pre-tick values) while the heading update still applies, and
provided the wall clamp alters no robot's pre-tick or proposed position, every
robot pair ends the tick at distance ≥ the robot diameter or with one of the
pair's translations rejected.  (Without that proviso the clamp can drag an
accepted position back into collision: see the counterexample.) -/
theorem collision_pair_property (cfg : Config) (rs : List BotDiffDrive) (n : ℕ)
    (w : List (ℝ × ℝ)) (dt st : ℝ) (hlen : n ≤ rs.length)
    (hclip : ∀ j, j < n →
      clip (proposedPose rs w dt j).2.1 (-cfg.arena_width / 2 + cfg.robot_radius)
          (cfg.arena_width / 2 - cfg.robot_radius) = (proposedPose rs w dt j).2.1 ∧
      clip (proposedPose rs w dt j).2.2 (-cfg.arena_height / 2 + cfg.robot_radius)
          (cfg.arena_height / 2 - cfg.robot_radius) = (proposedPose rs w dt j).2.2 ∧
      clip (rs.getD j default).pos_x (-cfg.arena_width / 2 + cfg.robot_radius)
          (cfg.arena_width / 2 - cfg.robot_radius) = (rs.getD j default).pos_x ∧
      clip (rs.getD j default).pos_y (-cfg.arena_height / 2 + cfg.robot_radius)
          (cfg.arena_height / 2 - cfg.robot_radius) = (rs.getD j default).pos_y) :
    ∀ i j, i < j → j < n →
      cfg.robot_diameter ≤ Real.sqrt
        ((((integrate_world cfg rs n w dt st).getD i default).pos_x
            - ((integrate_world cfg rs n w dt st).getD j default).pos_x) ^ 2 +
         (((integrate_world cfg rs n w dt st).getD i default).pos_y
            - ((integrate_world cfg rs n w dt st).getD j default).pos_y) ^ 2) ∨
      (((integrate_world cfg rs n w dt st).getD i default).pos_x
          = (rs.getD i default).pos_x ∧
       ((integrate_world cfg rs n w dt st).getD i default).pos_y
          = (rs.getD i default).pos_y) ∨
      (((integrate_world cfg rs n w dt st).getD j default).pos_x
          = (rs.getD j default).pos_x ∧
       ((integrate_world cfg rs n w dt st).getD j default).pos_y
          = (rs.getD j default).pos_y) := by
  intro i j hij hjn
  unfold proposedPose at hclip
  have hstj : (integrateUpTo cfg n w dt st rs n).getD j default
      = (integrateUpTo cfg n w dt st rs (j + 1)).getD j default :=
    integrateUpTo_getD_stable cfg n w dt st rs j (j + 1) (by omega) n (by omega)
  have hieq2 : (integrateUpTo cfg n w dt st rs n).getD i default
      = (integrateUpTo cfg n w dt st rs j).getD i default := by
    rw [integrateUpTo_getD_stable cfg n w dt st rs i (i + 1) (by omega) n (by omega),
      integrateUpTo_getD_stable cfg n w dt st rs i (i + 1) (by omega) j (by omega)]
  have hbj : (integrateUpTo cfg n w dt st rs j).getD j default = rs.getD j default :=
    integrateUpTo_getD_of_le cfg n w dt st rs j j (le_refl j)
  have hlenj : (integrateUpTo cfg n w dt st rs j).length = rs.length :=
    integrateUpTo_length cfg n w dt st rs j
  rw [integrate_world_eq_upTo, hstj, hieq2, integrateUpTo_succ]
  set S := integrateUpTo cfg n w dt st rs j with hS
  unfold integrateStep
  dsimp only
  rw [hbj]
  by_cases hB : check_collision cfg
      ((rs.getD j default).integrate (w.getD j (0, 0)).1 (w.getD j (0, 0)).2 dt)
      (S.set j { rs.getD j default with
        pos_angle := ((rs.getD j default).integrate (w.getD j (0, 0)).1
          (w.getD j (0, 0)).2 dt).1 }) j n = true
  · rw [if_pos hB]
    rw [getD_set_self _ _ _ _ (by rw [List.length_set, hlenj]; omega)]
    dsimp only
    rw [(hclip j hjn).1, (hclip j hjn).2.1]
    left
    have hcheck := (check_collision_iff _ _ _ _ _).mp hB i (mem_othersRange_of_lt i j n hij hjn)
    rw [getD_set_ne _ _ _ _ _ (by omega)] at hcheck
    have := lt_of_not_le hcheck
    exact le_of_lt this
  · rw [if_neg hB]
    rw [getD_set_self _ _ _ _ (by rw [List.length_set, hlenj]; omega)]
    dsimp only
    rw [(hclip j hjn).2.2.1, (hclip j hjn).2.2.2]
    right
    right
    exact ⟨rfl, rfl⟩

lemma wrapAngle_zero : wrapAngle 0 = 0 :=
  wrapAngle_eq_self (by linarith [Real.pi_pos]) Real.pi_pos

lemma integrate_mkBot_equal (x y u t : ℝ) :
    (mkBot x y 0).integrate u u t = (0, x + radius_of_wheel * u * t, y) := by
  unfold BotDiffDrive.integrate BotDiffDrive.dynamics mkBot
  dsimp only
  rw [Real.cos_zero, Real.sin_zero]
  have hang : (0:ℝ) + -radius_of_wheel / (2 * distance_between_wheel) * (u * t)
      + radius_of_wheel / (2 * distance_between_wheel) * (u * t) = 0 := by ring
  rw [hang, wrapAngle_zero]
  refine congrArg (Prod.mk 0) (Prod.ext ?_ ?_) <;> dsimp only <;> ring

lemma clip_eq_self {x lo hi : ℝ} (h1 : lo ≤ x) (h2 : x ≤ hi) : clip x lo hi = x := by
  unfold clip
  rw [max_eq_left h1, min_eq_left h2]

/-- Witness for `collision_pair_property`: two stationary robots at distance
0.5 in the 2x2 arena satisfy the pair property. -/
theorem collision_pair_property_witness :
    cfgRelay.robot_diameter ≤ Real.sqrt
      ((((integrate_world cfgRelay [mkBot 0 0 0, mkBot 0.5 0 0] 2 [(0, 0), (0, 0)] 1 0).getD 0
            default).pos_x
          - ((integrate_world cfgRelay [mkBot 0 0 0, mkBot 0.5 0 0] 2 [(0, 0), (0, 0)] 1
            0).getD 1 default).pos_x) ^ 2 +
       (((integrate_world cfgRelay [mkBot 0 0 0, mkBot 0.5 0 0] 2 [(0, 0), (0, 0)] 1 0).getD 0
            default).pos_y
          - ((integrate_world cfgRelay [mkBot 0 0 0, mkBot 0.5 0 0] 2 [(0, 0), (0, 0)] 1
            0).getD 1 default).pos_y) ^ 2) ∨
    (((integrate_world cfgRelay [mkBot 0 0 0, mkBot 0.5 0 0] 2 [(0, 0), (0, 0)] 1 0).getD 0
          default).pos_x = ([mkBot 0 0 0, mkBot 0.5 0 0].getD 0 default).pos_x ∧
     ((integrate_world cfgRelay [mkBot 0 0 0, mkBot 0.5 0 0] 2 [(0, 0), (0, 0)] 1 0).getD 0
          default).pos_y = ([mkBot 0 0 0, mkBot 0.5 0 0].getD 0 default).pos_y) ∨
    (((integrate_world cfgRelay [mkBot 0 0 0, mkBot 0.5 0 0] 2 [(0, 0), (0, 0)] 1 0).getD 1
          default).pos_x = ([mkBot 0 0 0, mkBot 0.5 0 0].getD 1 default).pos_x ∧
     ((integrate_world cfgRelay [mkBot 0 0 0, mkBot 0.5 0 0] 2 [(0, 0), (0, 0)] 1 0).getD 1
          default).pos_y = ([mkBot 0 0 0, mkBot 0.5 0 0].getD 1 default).pos_y) := by
  refine collision_pair_property cfgRelay [mkBot 0 0 0, mkBot 0.5 0 0] 2 [(0, 0), (0, 0)] 1 0
    (by norm_num) ?_ 0 1 (by omega) (by omega)
  intro j hj
  interval_cases j <;>
  · unfold proposedPose
    dsimp only [List.getD_cons_zero, List.getD_cons_succ]
    rw [integrate_mkBot_equal]
    dsimp only [mkBot]
    refine ⟨?_, ?_, ?_, ?_⟩ <;>
      exact clip_eq_self (by norm_num [cfgRelay, radius_of_wheel])
        (by norm_num [cfgRelay, radius_of_wheel])

/-- C3 counterexample: robots at (0.5, 0) and (0.4, 0) both drive hard
right (wheel speed 100 for 1 s, proposing x = 2.0 and x = 1.9).  Both collision
checks pass (the proposed positions are far from everyone), but the wall clamp
drags both robots to x = 0.9, so the pair ends the tick at distance 0.1 < 0.2 =
diameter with *both* translations applied — falsifying `post-tick distance ≥
diameter or the colliding robot's x, y unchanged from the pre-tick values`. -/
theorem collision_pair_clipping_counterexample :
    ¬ (cfgRelay.robot_diameter ≤ Real.sqrt
        ((((integrate_world cfgRelay [mkBot 0.5 0 0, mkBot 0.4 0 0] 2 [(100, 100), (100, 100)]
              1 0).getD 0 default).pos_x
            - ((integrate_world cfgRelay [mkBot 0.5 0 0, mkBot 0.4 0 0] 2
              [(100, 100), (100, 100)] 1 0).getD 1 default).pos_x) ^ 2 +
         (((integrate_world cfgRelay [mkBot 0.5 0 0, mkBot 0.4 0 0] 2 [(100, 100), (100, 100)]
              1 0).getD 0 default).pos_y
            - ((integrate_world cfgRelay [mkBot 0.5 0 0, mkBot 0.4 0 0] 2
              [(100, 100), (100, 100)] 1 0).getD 1 default).pos_y) ^ 2) ∨
      (((integrate_world cfgRelay [mkBot 0.5 0 0, mkBot 0.4 0 0] 2 [(100, 100), (100, 100)]
            1 0).getD 0 default).pos_x = (0.5 : ℝ) ∧
       ((integrate_world cfgRelay [mkBot 0.5 0 0, mkBot 0.4 0 0] 2 [(100, 100), (100, 100)]
            1 0).getD 0 default).pos_y = (0 : ℝ)) ∨
      (((integrate_world cfgRelay [mkBot 0.5 0 0, mkBot 0.4 0 0] 2 [(100, 100), (100, 100)]
            1 0).getD 1 default).pos_x = (0.4 : ℝ) ∧
       ((integrate_world cfgRelay [mkBot 0.5 0 0, mkBot 0.4 0 0] 2 [(100, 100), (100, 100)]
            1 0).getD 1 default).pos_y = (0 : ℝ))) := by
  have h0 : integrateStep cfgRelay 2 [((100 : ℝ), (100 : ℝ)), (100, 100)] 1 0
      [mkBot 0.5 0 0, mkBot 0.4 0 0] 0 = [mkBot 0.9 0 0, mkBot 0.4 0 0] := by
    unfold integrateStep
    dsimp only [List.getD_cons_zero, List.getD_cons_succ, List.set_cons_zero]
    rw [integrate_mkBot_equal]
    dsimp only
    split_ifs with hB
    · dsimp only [mkBot, cfgRelay]
      rw [show (0.5 : ℝ) + radius_of_wheel * 100 * 1 = 0.9 + 1.1 from by
        norm_num [radius_of_wheel]]
      rw [show clip ((0.9 : ℝ) + 1.1) (-2 / 2 + 0.1) (2 / 2 - 0.1) = 0.9 from by
        unfold clip
        rw [max_eq_left (by norm_num), min_eq_right (by norm_num)]
        norm_num]
      rw [clip_eq_self (by norm_num) (by norm_num)]
      norm_num
    · exfalso
      apply hB
      rw [check_collision_iff]
      intro k hk
      rw [show othersRange 0 2 = [1] from by decide] at hk
      simp only [List.mem_singleton] at hk
      subst hk
      dsimp only [List.getD_cons_zero, List.getD_cons_succ, mkBot, cfgRelay]
      rw [show ((0.4 : ℝ) - (0.5 + radius_of_wheel * 100 * 1)) ^ 2 + ((0 : ℝ) - 0) ^ 2
          = (1.6 : ℝ) ^ 2 from by norm_num [radius_of_wheel]]
      rw [Real.sqrt_sq (by norm_num : (0 : ℝ) ≤ 1.6)]
      norm_num
  have h1 : integrateStep cfgRelay 2 [((100 : ℝ), (100 : ℝ)), (100, 100)] 1 0
      [mkBot 0.9 0 0, mkBot 0.4 0 0] 1 = [mkBot 0.9 0 0, mkBot 0.9 0 0] := by
    unfold integrateStep
    dsimp only [List.getD_cons_zero, List.getD_cons_succ, List.set_cons_zero,
      List.set_cons_succ]
    rw [integrate_mkBot_equal]
    dsimp only
    split_ifs with hB
    · dsimp only [mkBot, cfgRelay]
      rw [show (0.4 : ℝ) + radius_of_wheel * 100 * 1 = 0.9 + 1 from by
        norm_num [radius_of_wheel]]
      rw [show clip ((0.9 : ℝ) + 1) (-2 / 2 + 0.1) (2 / 2 - 0.1) = 0.9 from by
        unfold clip
        rw [max_eq_left (by norm_num), min_eq_right (by norm_num)]
        norm_num]
      rw [clip_eq_self (by norm_num) (by norm_num)]
      norm_num
    · exfalso
      apply hB
      rw [check_collision_iff]
      intro k hk
      rw [show othersRange 1 2 = [0] from by decide] at hk
      simp only [List.mem_singleton] at hk
      subst hk
      dsimp only [List.getD_cons_zero, List.getD_cons_succ, mkBot, cfgRelay]
      rw [show ((0.9 : ℝ) - (0.4 + radius_of_wheel * 100 * 1)) ^ 2 + ((0 : ℝ) - 0) ^ 2
          = (1 : ℝ) ^ 2 from by norm_num [radius_of_wheel]]
      rw [Real.sqrt_sq (by norm_num : (0 : ℝ) ≤ 1)]
      norm_num
  have hres : integrate_world cfgRelay [mkBot 0.5 0 0, mkBot 0.4 0 0] 2
      [(100, 100), (100, 100)] 1 0 = [mkBot 0.9 0 0, mkBot 0.9 0 0] := by
    unfold integrate_world
    rw [show List.range 2 = [0, 1] from by decide]
    rw [List.foldl_cons, h0, List.foldl_cons, h1, List.foldl_nil]
  rw [hres]
  dsimp only [List.getD_cons_zero, List.getD_cons_succ, mkBot]
  rw [show ((0.9 : ℝ) - 0.9) ^ 2 + ((0 : ℝ) - 0) ^ 2 = 0 from by norm_num, Real.sqrt_zero]
  norm_num [cfgRelay]

/-! ## Command dispatch (`get_data`) and the clock-gated I/O pass of `loop` -/

/-- The decoded commands `get_data` dispatches on (`msg[2]` is the opcode;
`msg[1]` names the target robot).  The two-phase commands carry their second
read as a field. -/
inductive Cmd where
  | delay (rid millis : ℕ)
  | set_led (rid r g b : ℕ)
  | send_msg (rid : ℕ) (payload : Msg)
  | recv_msg (rid : ℕ) (clear : Bool)
  | get_clock (rid : ℕ)
  | set_wheel_velocity (rid : ℕ) (v_left v_right : ℝ)
  | get_pose (rid : ℕ)

/-- The mutable server state a command can touch: the robots, the message
buffers, the commanded wheel velocities, and the unconsumed random tape. -/
structure SimState where
  robot_state : List BotDiffDrive
  msg_buffer : MsgBuffers
  wheel_vel_arr : List (ℝ × ℝ)
  tape : List ℝ

/-- In-place update of one list slot (`robot_state[int(msg[1])].field = ...`). -/
def updList {α : Type} [Inhabited α] (l : List α) (i : ℕ) (f : α → α) : List α :=
  l.set i (f (l.getD i default))

/-- Function `get_data`: the state effect of servicing one decoded command (socket
replies carry no state and are not modelled).  `delay` adds `millis/1000` to
the target robot's clock; `set_led` checks `msg[1] in robot_id` (the admitted
ids are `0..n-1`); `send_msg` runs the relay; `recv_msg` rebinds the target
buffer to a fresh empty list when the caller confirms clearing;
`set_wheel_velocity` stores `max_motor_speed * power / 100`. -/
noncomputable def get_data (cfg : Config) (MSGSZ n : ℕ) (s : SimState) : Cmd → SimState
  | .delay rid millis =>
    { s with robot_state := (updList s.robot_state rid
        (fun b => { b with clk := b.clk + (millis : ℝ) / 1000 })) }
  | .set_led rid r g b =>
    if rid < n then
      { s with robot_state := (updList s.robot_state rid
          (fun bb => { bb with usr_led := (r, g, b) })) }
    else s
  | .send_msg rid payload =>
    let res := update_msg_buffer_full cfg MSGSZ s.msg_buffer n payload rid s.robot_state s.tape
    { s with msg_buffer := res.1, tape := res.2.2 }
  | .recv_msg rid clear =>
    if clear then { s with msg_buffer := s.msg_buffer.rebind rid [] } else s
  | .get_clock _ => s
  | .set_wheel_velocity rid v_left v_right =>
    { s with wheel_vel_arr := (s.wheel_vel_arr.set rid
        (cfg.max_motor_speed * v_left / 100, cfg.max_motor_speed * v_right / 100)) }
  | .get_pose _ => s

open Classical in
/-- One tick's socket pass over the bound robot connections, in readiness
order: a connection whose robot's `clk` already exceeds `sim_time_curr` is
skipped (left unread, its pending command not serviced); otherwise its pending
command is decoded and dispatched.  The gate re-reads the robot's *current*
clock at the moment the connection is considered. -/
noncomputable def servicePass (cfg : Config) (MSGSZ n : ℕ) (sim_time_curr : ℝ)
    (pending : List (ℕ × Cmd)) (s : SimState) : SimState :=
  pending.foldl
    (fun st p =>
      if (st.robot_state.getD p.1 default).clk > sim_time_curr then st
      else get_data cfg MSGSZ n st p.2) s

lemma getD_updList_clk_le (l : List BotDiffDrive) (rid i : ℕ) (f : BotDiffDrive → BotDiffDrive)
    (hf : ∀ b, b.clk ≤ (f b).clk) :
    (l.getD i default).clk ≤ ((updList l rid f).getD i default).clk := by
  unfold updList
  by_cases hri : rid = i
  · subst hri
    by_cases hlen : rid < l.length
    · rw [getD_set_self _ _ _ _ hlen]
      exact hf _
    · rw [List.set_eq_of_length_le (by omega)]
  · rw [getD_set_ne _ _ _ _ _ hri]

lemma get_data_clk_mono (cfg : Config) (MSGSZ n : ℕ) (s : SimState) (c : Cmd) (i : ℕ) :
    (s.robot_state.getD i default).clk
      ≤ ((get_data cfg MSGSZ n s c).robot_state.getD i default).clk := by
  cases c with
  | delay rid millis =>
    show (s.robot_state.getD i default).clk
      ≤ ((updList s.robot_state rid
          (fun b => { b with clk := b.clk + (millis : ℝ) / 1000 })).getD i default).clk
    refine getD_updList_clk_le _ _ _ _ fun b => ?_
    dsimp only
    have h : (0 : ℝ) ≤ (millis : ℝ) / 1000 := by positivity
    linarith
  | set_led rid r g b =>
    show (s.robot_state.getD i default).clk
      ≤ (((if rid < n then
          { s with robot_state := (updList s.robot_state rid
              (fun bb => { bb with usr_led := (r, g, b) })) }
          else s) : SimState).robot_state.getD i default).clk
    split_ifs
    · exact getD_updList_clk_le s.robot_state rid i
        (fun bb => { bb with usr_led := (r, g, b) }) (fun b => le_refl _)
    · exact le_refl _
  | send_msg rid payload => exact le_refl _
  | recv_msg rid clear =>
    show (s.robot_state.getD i default).clk
      ≤ (((if clear then { s with msg_buffer := s.msg_buffer.rebind rid [] } else s) :
          SimState).robot_state.getD i default).clk
    split_ifs <;> exact le_refl _
  | get_clock _ => exact le_refl _
  | set_wheel_velocity rid v_left v_right => exact le_refl _
  | get_pose _ => exact le_refl _

lemma servicePass_clk_mono (cfg : Config) (MSGSZ n : ℕ) (t : ℝ) :
    ∀ (pending : List (ℕ × Cmd)) (s : SimState) (i : ℕ),
      (s.robot_state.getD i default).clk
        ≤ ((servicePass cfg MSGSZ n t pending s).robot_state.getD i default).clk
  | [], _, _ => le_refl _
  | p :: rest, s, i => by
    unfold servicePass
    rw [List.foldl_cons]
    refine le_trans ?_ (servicePass_clk_mono cfg MSGSZ n t rest _ i)
    split_ifs
    · exact le_refl _
    · exact get_data_clk_mono cfg MSGSZ n s p.2 i

lemma integrateStep_clk_mono (cfg : Config) (n : ℕ) (w : List (ℝ × ℝ)) (dt st : ℝ)
    (rs : List BotDiffDrive) (k i : ℕ) :
    (rs.getD i default).clk ≤ ((integrateStep cfg n w dt st rs k).getD i default).clk := by
  by_cases hki : k = i
  · subst hki
    by_cases hlen : k < rs.length
    · unfold integrateStep
      dsimp only
      rw [getD_set_self _ _ _ _ (by rw [List.length_set]; omega)]
      dsimp only
      split_ifs <;> dsimp only <;> exact le_max_left _ _
    · unfold integrateStep
      dsimp only
      rw [List.set_eq_of_length_le (by rw [List.length_set]; omega),
        List.set_eq_of_length_le (by omega)]
  · rw [integrateStep_getD_ne _ _ _ _ _ _ _ _ hki]

lemma integrateUpTo_clk_mono (cfg : Config) (n : ℕ) (w : List (ℝ × ℝ)) (dt st : ℝ)
    (rs : List BotDiffDrive) (i : ℕ) : ∀ k,
    (rs.getD i default).clk ≤ ((integrateUpTo cfg n w dt st rs k).getD i default).clk
  | 0 => le_refl _
  | k + 1 => by
    rw [integrateUpTo_succ]
    exact le_trans (integrateUpTo_clk_mono cfg n w dt st rs i k)
      (integrateStep_clk_mono cfg n w dt st _ k i)

/-- C8: no operation of the server decreases any robot's `logicalClock`:
every serviced command (in particular `delay`, which adds `millis/1000 ≥ 0`),
every full clock-gated I/O pass, and every `integrate_world` tick (which sets
`clk := max(clk, sim_time)`) leave each robot's clock at least where it was. -/
theorem clk_monotone :
    (∀ (cfg : Config) (MSGSZ n : ℕ) (s : SimState) (c : Cmd) (i : ℕ),
      (s.robot_state.getD i default).clk
        ≤ ((get_data cfg MSGSZ n s c).robot_state.getD i default).clk) ∧
    (∀ (cfg : Config) (MSGSZ n : ℕ) (t : ℝ) (pending : List (ℕ × Cmd)) (s : SimState) (i : ℕ),
      (s.robot_state.getD i default).clk
        ≤ ((servicePass cfg MSGSZ n t pending s).robot_state.getD i default).clk) ∧
    (∀ (cfg : Config) (rs : List BotDiffDrive) (n : ℕ) (w : List (ℝ × ℝ)) (dt st : ℝ) (i : ℕ),
      (rs.getD i default).clk
        ≤ ((integrate_world cfg rs n w dt st).getD i default).clk) :=
  ⟨fun cfg MSGSZ n s c i => get_data_clk_mono cfg MSGSZ n s c i,
   fun cfg MSGSZ n t pending s i => servicePass_clk_mono cfg MSGSZ n t pending s i,
   fun cfg rs n w dt st i => integrateUpTo_clk_mono cfg n w dt st rs i n⟩

/-- C4: the clock gate.  If robot `i`'s `logicalClock` strictly exceeds the
current `simTime` at the start of the I/O pass, then dropping all of robot
`i`'s pending commands from the pass changes nothing: the gated robot is never
serviced in that tick and no state mutation attributable to its pending
commands occurs.  (The gate is re-evaluated from the robot's current clock
each time a connection is considered — and a gated clock can only grow during
the pass, since no serviced command decreases any clock.) -/
theorem clock_gate_no_service (cfg : Config) (MSGSZ n : ℕ) (t : ℝ) :
    ∀ (pending : List (ℕ × Cmd)) (s : SimState) (i : ℕ),
      t < (s.robot_state.getD i default).clk →
      servicePass cfg MSGSZ n t pending s
        = servicePass cfg MSGSZ n t (pending.filter fun p => decide (p.1 ≠ i)) s
  | [], _, _, _ => rfl
  | p :: rest, s, i, h => by
    unfold servicePass
    rw [List.foldl_cons, List.filter_cons]
    by_cases hpi : p.1 = i
    · rw [show (decide (p.1 ≠ i)) = false from by simp [hpi]]
      rw [if_neg Bool.false_ne_true]
      rw [hpi, if_pos (show (s.robot_state.getD i default).clk > t from h)]
      have ih := clock_gate_no_service cfg MSGSZ n t rest s i h
      unfold servicePass at ih
      exact ih
    · rw [show (decide (p.1 ≠ i)) = true from by simp [hpi]]
      rw [if_pos rfl, List.foldl_cons]
      set s2 := if (s.robot_state.getD p.1 default).clk > t then s
        else get_data cfg MSGSZ n s p.2 with hs2
      have h2 : t < (s2.robot_state.getD i default).clk := by
        rw [hs2]
        split_ifs
        · exact h
        · exact lt_of_lt_of_le h (get_data_clk_mono cfg MSGSZ n s p.2 i)
      have ih := clock_gate_no_service cfg MSGSZ n t rest s2 i h2
      unfold servicePass at ih
      exact ih

/-- Witness for `clock_gate_no_service`: a robot with clock 5 at simTime 1 is
gated; its pending delay command has no effect on the pass. -/
theorem clock_gate_no_service_witness :
    servicePass cfgRelay MSG_BUFFER_SIZE 2 1 [(0, Cmd.delay 0 1000)]
        ⟨[⟨0, 0, 0, 0, 5, (0, 0, 0)⟩], initMsgBuffer 2, [(0, 0)], []⟩
      = servicePass cfgRelay MSG_BUFFER_SIZE 2 1
        ([(0, Cmd.delay 0 1000)].filter fun p => decide (p.1 ≠ 0))
        ⟨[⟨0, 0, 0, 0, 5, (0, 0, 0)⟩], initMsgBuffer 2, [(0, 0)], []⟩ :=
  clock_gate_no_service cfgRelay MSG_BUFFER_SIZE 2 1 [(0, Cmd.delay 0 1000)]
    ⟨[⟨0, 0, 0, 0, 5, (0, 0, 0)⟩], initMsgBuffer 2, [(0, 0)], []⟩ 0
    (by simp only [List.getD_cons_zero]; norm_num)

end SwarmSim
